import Mathlib

/-!
Verification development for the rocksdb-configuration-distribution repository.

The repository contains two service variants sharing one design:
* a monolithic server (`main.go`, Go package `main`), modelled in
  namespace `Mono`;
* a modular server (`cmd/kvstore` plus `internal/{datastore,handler,upstream,cleaner,transport}`),
  modelled in namespaces `Datastore`, `Handler`, `Upstream`, `Cleaner`, `KV`.

Modelling conventions:
* Timestamps (`time.Now().UnixNano()`), TTLs (`time.Duration`) and entry
  expiries are Go `int64` values; realistic values are far from the 64-bit
  bounds (no overflow reachable), so they are embedded as `Int`, with
  `math.MaxInt64` as the explicit constant `maxInt64`.  The current wall time
  is passed explicitly as a `now` argument.
* JSON payloads (`json.RawMessage`) are embedded as the ordered syntax tree
  `Jraw`: an object keeps the textual order of its fields, so two `Jraw`
  values are equal iff the corresponding raw byte strings agree up to
  whitespace.  Go's `json.Unmarshal` into `interface{}` followed by
  `json.Marshal` (objects become `map[string]interface{}`, losing field order
  and duplicates, and are re-serialized with keys sorted) is embedded as the
  canonicalization function `canon`.
* A value stored in RocksDB is either bytes that `json.Unmarshal` accepts for
  the `dbEntry`/`DBEntry` wrapper struct (`StoredBytes.wrapped expiry value`)
  or bytes on which that unmarshal fails (`StoredBytes.legacy bytes`, the
  "legacy raw bytes" case of the code).
* The RocksDB keyspace is a finite map embedded as the association list
  `Store`; iteration (`NewIterator`/`SeekToFirst`/`Next`) visits entries in
  list order.  Engine-level read/write failures of RocksDB itself are out of
  scope (the engine is an external collaborator), so the store primitives are
  total; the modular `Handler` is additionally verified against an arbitrary
  `DSModel`, whose operations may fail, exactly as `handler.Handler` is
  written against the `datastore.Datastore` interface.
* The Go standard library JSON parser for request envelopes is external; the
  connection handlers take the envelope decoder as a function argument
  (`decode`), and concrete instances stand for its result on a given payload.
-/

/-- Go `math.MaxInt64`, the `INFINITE` expiry marker of the entry codec. -/
def maxInt64 : Int := 9223372036854775807

mutual
/-- Ordered JSON syntax tree for opaque payloads (`json.RawMessage`).
Objects are ordered lists of fields, so distinct textual field orders are
distinct `Jraw` values. -/
inductive Jraw where
  | null : Jraw
  | bool (b : Bool) : Jraw
  | num (n : Int) : Jraw
  | str (s : String) : Jraw
  | arr (elems : JrawList) : Jraw
  | obj (fields : JrawFields) : Jraw
deriving DecidableEq, Repr

/-- Elements of a JSON array, in order. -/
inductive JrawList where
  | nil : JrawList
  | cons (hd : Jraw) (tl : JrawList) : JrawList
deriving DecidableEq, Repr

/-- Fields of a JSON object, in textual order. -/
inductive JrawFields where
  | nil : JrawFields
  | fcons (key : String) (val : Jraw) (tl : JrawFields) : JrawFields
deriving DecidableEq, Repr
end

/-- Byte-wise string comparison on code points, the order in which Go's
`json.Marshal` emits map keys (`sort.Strings`). -/
def keyLtL : List Char → List Char → Bool
  | [], [] => false
  | [], _ :: _ => true
  | _ :: _, [] => false
  | c :: cs, d :: ds =>
    if c.toNat < d.toNat then true
    else if c.toNat = d.toNat then keyLtL cs ds
    else false

/-- `keyLtL` on strings. -/
def keyLt (a b : String) : Bool := keyLtL a.toList b.toList

/-- Insert a field into a key-sorted field list, replacing an existing field
with the same key (Go map assignment, re-emitted in sorted key order by
`json.Marshal`). -/
def insertField (k : String) (v : Jraw) : JrawFields → JrawFields
  | .nil => .fcons k v .nil
  | .fcons k2 v2 rest =>
    if keyLt k k2 then .fcons k v (.fcons k2 v2 rest)
    else if k = k2 then .fcons k v rest
    else .fcons k2 v2 (insertField k v rest)

/-- Left-to-right insertion of fields into a sorted map: later duplicates
override earlier ones, as in Go's `json.Unmarshal` into a map. -/
def sortFieldsAux : JrawFields → JrawFields → JrawFields
  | acc, .nil => acc
  | acc, .fcons k v rest => sortFieldsAux (insertField k v acc) rest

/-- Sort (and deduplicate, last wins) the fields of a JSON object. -/
def sortFields (fs : JrawFields) : JrawFields := sortFieldsAux .nil fs

mutual
/-- Embeds Go `json.Unmarshal(bytes, &v)` into `interface{}` followed by
`json.Marshal(v)`: arrays keep order, object fields are deduplicated
(last wins) and re-emitted in sorted key order. -/
def canon : Jraw → Jraw
  | .null => .null
  | .bool b => .bool b
  | .num n => .num n
  | .str s => .str s
  | .arr xs => .arr (canonList xs)
  | .obj fs => .obj (sortFields (canonFields fs))
termination_by structural j => j

/-- `canon` mapped over array elements. -/
def canonList : JrawList → JrawList
  | .nil => .nil
  | .cons x xs => .cons (canon x) (canonList xs)
termination_by structural l => l

/-- `canon` mapped over object field values (order untouched here). -/
def canonFields : JrawFields → JrawFields
  | .nil => .nil
  | .fcons k v fs => .fcons k (canon v) (canonFields fs)
termination_by structural fs => fs
end

/-- Bytes at a RocksDB key: either they unmarshal into the `dbEntry`/`DBEntry`
wrapper struct (`wrapped`), or that unmarshal fails (`legacy`, the code's
"legacy raw bytes" case). -/
inductive StoredBytes where
  | wrapped (expiry : Int) (value : Jraw) : StoredBytes
  | legacy (bytes : Jraw) : StoredBytes
deriving DecidableEq, Repr

/-- The RocksDB keyspace as an association list; iteration order is list
order. -/
abbrev Store := List (String × StoredBytes)

/-- Association-list lookup (Go map index / `db.Get`). -/
def alistGet {α : Type} : List (String × α) → String → Option α
  | [], _ => none
  | (k, v) :: rest, key => if k = key then some v else alistGet rest key

/-- `db.Put`: replace the entry at the key, or append a fresh one. -/
def storePut : Store → String → StoredBytes → Store
  | [], key, v => [(key, v)]
  | (k, w) :: rest, key, v =>
    if k = key then (key, v) :: rest else (k, w) :: storePut rest key v

/-- `db.Delete`: remove the entry at the key. -/
def storeDel : Store → String → Store
  | [], _ => []
  | (k, v) :: rest, key =>
    if k = key then storeDel rest key else (k, v) :: storeDel rest key

/-- Insert into an ordered response map (`results[key] = v`). -/
def upsert {α : Type} : List (String × α) → String → α → List (String × α)
  | [], key, v => [(key, v)]
  | (k, w) :: rest, key, v =>
    if k = key then (key, v) :: rest else (k, w) :: upsert rest key v

/-- The request envelope (`Request` in both variants): `items` maps a key to
`some v` for a write or `none` for the empty-value delete marker. -/
structure Request where
  rtype : String
  keys : List String
  items : List (String × Option Jraw)
deriving DecidableEq, Repr

/-- The response envelope (`Response` in both variants). `data` maps a key to
`some v` (a JSON value decoded from raw bytes) or `none` (JSON `null`, a
miss). -/
structure Resp where
  rtype : String
  error : String
  data : Option (List (String × Option Jraw))
deriving DecidableEq, Repr

/-- Decidable equality for `Except` results, used to evaluate concrete runs. -/
instance {α β : Type} [DecidableEq α] [DecidableEq β] : DecidableEq (Except α β) :=
  fun a b =>
    match a, b with
    | .ok x, .ok y =>
      if h : x = y then isTrue (by rw [h]) else isFalse (by simp [h])
    | .error x, .error y =>
      if h : x = y then isTrue (by rw [h]) else isFalse (by simp [h])
    | .ok x, .error y => isFalse (fun hh => Except.noConfusion hh)
    | .error x, .ok y => isFalse (fun hh => Except.noConfusion hh)

/-- `Response{Type: "OK", Data: d}`. -/
def okData (d : List (String × Option Jraw)) : Resp := ⟨"OK", "", some d⟩

/-- `Response{Type: "OK"}`. -/
def okEmpty : Resp := ⟨"OK", "", none⟩

/-- `Response{Type: "ERR", Error: e}`. -/
def errResp (e : String) : Resp := ⟨"ERR", e, none⟩

/-- Body of an upstream HTTP reply, after the status line: either the JSON
decoding of the `Response` envelope fails (`malformed`), or it yields a
`Response` with the given type, error and data fields. -/
inductive UpBody where
  | malformed (msg : String) : UpBody
  | good (rtype : String) (error : String) (data : List (String × Option Jraw)) : UpBody
deriving DecidableEq, Repr

/-- Result of one upstream HTTP POST: transport failure (`client.Do` error,
including timeout) or a status code with a body. -/
inductive HTTPResult where
  | netErr (msg : String) : HTTPResult
  | reply (status : Nat) (body : UpBody) : HTTPResult
deriving DecidableEq, Repr

/-- An entry is expired for the janitor: wrapper decodes, expiry finite and
`expiry <= now` (`w.Expiry != math.MaxInt64 && w.Expiry <= now`). -/
def expiredAt (now : Int) : StoredBytes → Bool
  | .wrapped e _ => decide (e ≠ maxInt64 ∧ e ≤ now)
  | .legacy _ => false

namespace Mono

/-! Model of the monolithic variant (`main.go`). -/

/-- `writeEntry` (main.go): store `{expiry, value}` with
`expiry = math.MaxInt64` if `replicaMode || ttl == 0`, else `now + ttl`.
The stored value bytes are exactly `raw`. -/
def writeEntry (st : Store) (key : String) (raw : Jraw) (now ttl : Int)
    (replicaMode : Bool) : Store :=
  storePut st key
    (.wrapped (if replicaMode ∨ ttl = 0 then maxInt64 else now + ttl) raw)

/-- `readEntry` (main.go): wrapper parses → expired (`expiry != MaxInt64 &&
now > expiry`) deletes the key and misses, else hit with the wrapped bytes;
wrapper fails to parse → legacy raw: returned as-is in replica mode, rewrapped
via `writeEntry` (ttl, non-replica) then returned in ephemeral mode.  The Go
error channel only carries `db.Get` engine failures, which are out of scope,
so the result is `(value-or-miss, updated store)`. -/
def readEntry (st : Store) (key : String) (now ttl : Int) (replicaMode : Bool) :
    Option Jraw × Store :=
  match alistGet st key with
  | none => (none, st)
  | some (.wrapped e v) =>
    if e ≠ maxInt64 ∧ now > e then (none, storeDel st key)
    else (some v, st)
  | some (.legacy b) =>
    if replicaMode then (some b, st)
    else (some b, writeEntry st key b now ttl false)

/-- `deleteEntry` (main.go). -/
def deleteEntry (st : Store) (key : String) : Store := storeDel st key

/-- `listAllEntries` (main.go): full scan; a parsed wrapper is included iff
`replicaMode || expiry == MaxInt64 || expiry > now`, with its value decoded to
`interface{}` (hence `canon`); bytes failing the wrapper parse are included
(decoded) in replica mode and skipped in ephemeral mode. -/
def listAllEntries (st : Store) (now : Int) (replicaMode : Bool) :
    List (String × Option Jraw) :=
  match st with
  | [] => []
  | (k, .wrapped e v) :: rest =>
    if replicaMode ∨ e = maxInt64 ∨ e > now then
      (k, some (canon v)) :: listAllEntries rest now replicaMode
    else listAllEntries rest now replicaMode
  | (k, .legacy b) :: rest =>
    if replicaMode then (k, some (canon b)) :: listAllEntries rest now replicaMode
    else listAllEntries rest now replicaMode

/-- One tick of the cleaner in `startCleaner` (main.go): scan all entries,
collect keys whose wrapper parses and is expired (`expiredAt`) into the
current batch, flush the batch whenever the running count reaches the chunk
size, and flush a non-empty partial batch at scan end.  Returns the flushed
delete batches in order. -/
def cleanerScan (now : Int) (chunk : Nat) :
    Store → List String → Nat → List (List String)
  | [], batch, count => if 0 < count then [batch] else []
  | (k, v) :: rest, batch, count =>
    let step := if expiredAt now v then (batch ++ [k], count + 1) else (batch, count)
    if chunk ≤ step.2 then step.1 :: cleanerScan now chunk rest [] 0
    else cleanerScan now chunk rest step.1 step.2

/-- `fetchFromUpstream` (main.go), as a function of the HTTP outcome: network
error → error; 404 → clean miss; any other non-200 status → error
`"upstream status %d"`; undecodable body → error; `ERR` envelope → error
`"upstream error: %s"`; otherwise the value at the key (marshalled back from
`interface{}`, hence `canon`), with a missing or null entry a clean miss. -/
def fetchFromUpstream (hr : HTTPResult) (key : String) :
    Except String (Option Jraw) :=
  match hr with
  | .netErr m => .error m
  | .reply status body =>
    if status = 404 then .ok none
    else if status ≠ 200 then .error ("upstream status " ++ toString status)
    else
      match body with
      | .malformed m => .error m
      | .good t e data =>
        if t = "ERR" then .error ("upstream error: " ++ e)
        else
          match alistGet data key with
          | none => .ok none
          | some none => .ok none
          | some (some v) => .ok (some (canon v))

/-- The GET arm of `handleRequest` (main.go): per key, `readEntry`; on a hit
the value is decoded into the results map; on a miss with an upstream
configured, `fetchFromUpstream` — an error aborts the whole request with ERR
(partial results discarded), a found value is written back via `writeEntry`
(non-replica) and returned, not-found yields null.  Also returns the list of
keys for which an upstream fetch was issued, in order. -/
def getLoop (now ttl : Int) (up : Option (String → HTTPResult)) :
    Store → List String → List (String × Option Jraw) →
    Resp × Store × List String
  | st, [], acc => (okData acc, st, [])
  | st, key :: rest, acc =>
    match readEntry st key now ttl up.isNone with
    | (some raw, st1) =>
      getLoop now ttl up st1 rest (upsert acc key (some (canon raw)))
    | (none, st1) =>
      match up with
      | none => getLoop now ttl up st1 rest (upsert acc key none)
      | some world =>
        match fetchFromUpstream (world key) key with
        | .error e => (errResp e, st1, [key])
        | .ok none =>
          let r := getLoop now ttl up st1 rest (upsert acc key none)
          (r.1, r.2.1, key :: r.2.2)
        | .ok (some rawUp) =>
          let st2 := writeEntry st1 key rawUp now ttl false
          let r := getLoop now ttl up st2 rest (upsert acc key (some (canon rawUp)))
          (r.1, r.2.1, key :: r.2.2)

/-- The UPDATE arm of `handleRequest` (main.go): empty value deletes the key,
otherwise `writeEntry` with the configured ttl and mode.  Store primitives
are total here, so the batch always completes with OK. -/
def updateLoop (now ttl : Int) (replicaMode : Bool) :
    Store → List (String × Option Jraw) → Resp × Store
  | st, [] => (okEmpty, st)
  | st, (k, none) :: rest => updateLoop now ttl replicaMode (deleteEntry st k) rest
  | st, (k, some v) :: rest =>
    updateLoop now ttl replicaMode (writeEntry st k v now ttl replicaMode) rest

/-- `handleRequest` (main.go).  `up = none` models an empty `UPSTREAM_URL`
(replica mode); `up = some world` models a configured upstream whose HTTP
outcome per key is given by `world`.  The third component is the trace of
upstream-fetched keys. -/
def handleRequest (st : Store) (req : Request) (now ttl : Int)
    (up : Option (String → HTTPResult)) : Resp × Store × List String :=
  if req.rtype = "GET" then getLoop now ttl up st req.keys []
  else if req.rtype = "LIST" then (okData (listAllEntries st now up.isNone), st, [])
  else if req.rtype = "UPDATE" then
    let r := updateLoop now ttl up.isNone st req.items
    (r.1, r.2, [])
  else (errResp "unknown type", st, [])

end Mono

namespace Datastore

/-! Model of `internal/datastore/rocksdb.go` (`RocksDB` methods). -/

/-- `RocksDB.Get`: absent key → clean miss; wrapper unmarshal failure →
the error is returned (`return nil, false, err`); expired wrapper
(`Expiry != MaxInt64 && now > Expiry`) → delete and clean miss; else hit. -/
def Get (st : Store) (key : String) (now : Int) :
    Except String (Option Jraw) × Store :=
  match alistGet st key with
  | none => (.ok none, st)
  | some (.legacy _) => (.error "json: cannot unmarshal into DBEntry", st)
  | some (.wrapped e v) =>
    if e ≠ maxInt64 ∧ now > e then (.ok none, storeDel st key)
    else (.ok (some v), st)

/-- `RocksDB.Put`: store `{expiry, value}` with `expiry = MaxInt64` if
`ttl == 0`, else `now + ttl` (no mode dependence). -/
def Put (st : Store) (key : String) (value : Jraw) (now ttl : Int) : Store :=
  storePut st key (.wrapped (if ttl = 0 then maxInt64 else now + ttl) value)

/-- `RocksDB.List`: full scan; entries whose wrapper unmarshal fails are
skipped; a parsed wrapper is included iff `Expiry == MaxInt64 || Expiry >
now`, with its value decoded to `interface{}` (hence `canon`). -/
def listAll (st : Store) (now : Int) : List (String × Option Jraw) :=
  match st with
  | [] => []
  | (k, .wrapped e v) :: rest =>
    if e = maxInt64 ∨ e > now then (k, some (canon v)) :: listAll rest now
    else listAll rest now
  | (_, .legacy _) :: rest => listAll rest now

end Datastore

namespace Upstream

/-- `Client.Fetch` (internal/upstream): network error → error; non-200 status
→ `(nil, false, nil)` whether or not it is 404 (both branches return the same
triple); undecodable body → error; `ERR` envelope → `(nil, false, nil)`;
otherwise the value at the key, with missing/null a clean miss. -/
def Fetch (hr : HTTPResult) (key : String) : Except String (Option Jraw) :=
  match hr with
  | .netErr m => .error m
  | .reply status body =>
    if status ≠ 200 then
      if status = 404 then .ok none else .ok none
    else
      match body with
      | .malformed m => .error m
      | .good t _ data =>
        if t = "ERR" then .ok none
        else
          match alistGet data key with
          | none => .ok none
          | some none => .ok none
          | some (some v) => .ok (some (canon v))

end Upstream

/-- The `datastore.Datastore` interface as seen by `handler.Handler`: a state
type with fallible get/put/delete.  `put` takes the ttl argument of
`Datastore.Put`. -/
structure DSModel (σ : Type) where
  get : σ → String → Except String (Option Jraw) × σ
  put : σ → String → Jraw → Int → Except String Unit × σ
  del : σ → String → Except String Unit × σ

/-- The real `RocksDB` datastore as a `DSModel` (its engine-level operations
are total; `Get` can fail with the wrapper-decode error). -/
def rocksDS (now : Int) : DSModel Store where
  get := fun s k => Datastore.Get s k now
  put := fun s k v ttl => (.ok (), Datastore.Put s k v now ttl)
  del := fun s k => (.ok (), storeDel s k)

/-- A datastore whose writes fail (e.g. a full or read-only disk): `Put`
returns an error and leaves the state unchanged; reads behave like
`RocksDB`. -/
def failPutDS (now : Int) : DSModel Store where
  get := fun s k => Datastore.Get s k now
  put := fun s _ _ _ => (.error "put failed", s)
  del := fun s k => (.ok (), storeDel s k)

namespace Handler

/-! Model of `internal/handler` (`Handler.Serve`). -/

/-- The GET arm of `Handler.Serve`: per key, `DB.Get` (an error aborts the
whole request with ERR); hit → decode into results; miss with an upstream →
`Fetch` (error aborts with ERR; found → `_ = h.DB.Put(...)` with the error
DISCARDED, then the upstream value is returned; not-found → null).  The third
component is the trace of upstream-fetched keys. -/
def serveGetLoop {σ : Type} (ds : DSModel σ) (ttl : Int)
    (up : Option (String → Except String (Option Jraw))) :
    σ → List String → List (String × Option Jraw) →
    Resp × σ × List String
  | s, [], acc => (okData acc, s, [])
  | s, k :: rest, acc =>
    match ds.get s k with
    | (.error e, s1) => (errResp e, s1, [])
    | (.ok (some raw), s1) =>
      serveGetLoop ds ttl up s1 rest (upsert acc k (some (canon raw)))
    | (.ok none, s1) =>
      match up with
      | none => serveGetLoop ds ttl up s1 rest (upsert acc k none)
      | some fetch =>
        match fetch k with
        | .error e => (errResp e, s1, [k])
        | .ok none =>
          let r := serveGetLoop ds ttl up s1 rest (upsert acc k none)
          (r.1, r.2.1, k :: r.2.2)
        | .ok (some rawUp) =>
          let s2 := (ds.put s1 k rawUp ttl).2
          let r := serveGetLoop ds ttl up s2 rest (upsert acc k (some (canon rawUp)))
          (r.1, r.2.1, k :: r.2.2)

/-- The UPDATE arm of `Handler.Serve`: empty value → `DB.Delete`, else
`DB.Put` with the handler ttl; the first error aborts with ERR. -/
def serveUpdateLoop {σ : Type} (ds : DSModel σ) (ttl : Int) :
    σ → List (String × Option Jraw) → Resp × σ
  | s, [] => (okEmpty, s)
  | s, (k, none) :: rest =>
    match ds.del s k with
    | (.error e, s1) => (errResp e, s1)
    | (.ok _, s1) => serveUpdateLoop ds ttl s1 rest
  | s, (k, some v) :: rest =>
    match ds.put s k v ttl with
    | (.error e, s1) => (errResp e, s1)
    | (.ok _, s1) => serveUpdateLoop ds ttl s1 rest

/-- `Handler.Serve` (internal/handler), for the GET and UPDATE arms used by
the claims (`up = none` models `h.Upstream == nil`).  The third component is
the trace of upstream-fetched keys. -/
def Serve {σ : Type} (ds : DSModel σ) (ttl : Int)
    (up : Option (String → Except String (Option Jraw))) (s : σ)
    (req : Request) : Resp × σ × List String :=
  if req.rtype = "GET" then serveGetLoop ds ttl up s req.keys []
  else if req.rtype = "UPDATE" then
    let r := serveUpdateLoop ds ttl s req.items
    (r.1, r.2, [])
  else (errResp "unknown type", s, [])

end Handler

namespace Cleaner

/-- `runOnce` (internal/cleaner): calls `ds.List()`, binds the result to a
variable that is never used (`_ = all`), and returns without deleting
anything; the commented-out deletion loop is absent from the code.  Returns
the (unchanged) store and the (empty) list of issued delete batches. -/
def runOnce (st : Store) (now : Int) (chunkSize : Nat) :
    Store × List (List String) :=
  let all := Datastore.listAll st now
  let _ := all
  let _ := chunkSize
  (st, [])

end Cleaner

namespace KV

/-! Model of the framed socket transports: the monolithic accept loop in
`main.go` and the per-connection handler in `cmd/kvstore/main.go` over
`internal/transport`.  A connection's incoming byte stream is a `List Nat`
of bytes; reaching the end of the list is a read failure of `io.ReadFull`
(EOF/connection error). -/

/-- `binary.BigEndian.Uint32` over a 4-byte header. -/
def be32 (l : List Nat) : Nat := l.foldl (fun acc x => acc * 256 + x) 0

/-- `binary.BigEndian.PutUint32`: big-endian bytes of a length. -/
def lenBE (n : Nat) : List Nat :=
  [n / 16777216 % 256, n / 65536 % 256, n / 256 % 256, n % 256]

/-- `encodeFrame` / `WriteMessage` framing: 4-byte big-endian length prefix
followed by the payload bytes. -/
def mkFrame (p : List Nat) : List Nat := lenBE p.length ++ p

/-- The per-connection loop of the monolithic `main.go`: read a 4-byte
header, then exactly that many payload bytes (either read falling short
terminates the loop with no further response); a payload the envelope
decoder rejects produces an ERR response and the loop continues; otherwise
dispatch `handleRequest` and continue.  Returns the responses written to the
connection, in order, and the final store. -/
def monoConnLoop (decode : List Nat → Except String Request) (now ttl : Int)
    (up : Option (String → HTTPResult)) (st : Store) (stream : List Nat) :
    List Resp × Store :=
  if _h4 : 4 ≤ stream.length then
    let len := be32 (stream.take 4)
    let rest := stream.drop 4
    if _h5 : len ≤ rest.length then
      match decode (rest.take len) with
      | .error e =>
        let r := monoConnLoop decode now ttl up st (rest.drop len)
        (errResp e :: r.1, r.2)
      | .ok req =>
        let h := Mono.handleRequest st req now ttl up
        let r := monoConnLoop decode now ttl up h.2.1 (rest.drop len)
        (h.1 :: r.1, r.2)
    else ([], st)
  else ([], st)
termination_by stream.length
decreasing_by
  all_goals simp only [List.length_drop]; omega

/-- The per-connection handler of `cmd/kvstore/main.go`: one `ReadMessage`
(header then payload; short read → log and return, no response), one
`serveFn` call (envelope decode failure → log and return, NO response
written), one `WriteMessage`, then the connection is closed.  Bytes beyond
the first frame are never read.  Returns the responses written (at most one)
and the final handler state. -/
def kvConnServe {σ : Type} (decode : List Nat → Except String Request)
    (serveFn : σ → Request → Resp × σ) (s : σ) (stream : List Nat) :
    List Resp × σ :=
  if 4 ≤ stream.length then
    let len := be32 (stream.take 4)
    let rest := stream.drop 4
    if len ≤ rest.length then
      match decode (rest.take len) with
      | .error _ => ([], s)
      | .ok req =>
        let r := serveFn s req
        ([r.1], r.2)
    else ([], s)
  else ([], s)

end KV

example : canon (Jraw.obj (.fcons "b" (Jraw.num 1) (.fcons "a" (Jraw.num 2) .nil)))
    = Jraw.obj (.fcons "a" (Jraw.num 2) (.fcons "b" (Jraw.num 1) .nil)) := by decide

/-! ### Concrete fixtures used by counterexamples and witnesses -/

/-- A store holding one entry whose bytes fail the wrapper unmarshal. -/
def stLegacy : Store := [("k", .legacy (.str "w"))]

/-- A store holding one wrapped entry with finite expiry 5. -/
def stExpired : Store := [("k", .wrapped 5 (.str "w"))]

/-- A JSON object whose textual field order is not sorted. -/
def vObj : Jraw := .obj (.fcons "b" (.num 1) (.fcons "a" (.num 2) .nil))

/-- `vObj` with its fields in sorted key order. -/
def vObjSorted : Jraw := .obj (.fcons "a" (.num 2) (.fcons "b" (.num 1) .nil))

/-- An upstream that answers 404 with an empty OK body. -/
def http404 : HTTPResult := .reply 404 (.good "OK" "" [])

/-- An upstream that answers 500 with an OK body. -/
def http500 : HTTPResult := .reply 500 (.good "OK" "" [])

/-- The keys the janitor must delete: entries whose wrapper parses with
finite expiry `<= now`, in scan order. -/
def expiredKeys (now : Int) (st : Store) : List String :=
  (st.filter fun p => expiredAt now p.2).map Prod.fst

/-- The key currently reads as a hit in ephemeral mode: it is stored, and if
wrapped, not strictly expired (`readEntry` returns `ok == true`). -/
def liveKey (st : Store) (k : String) (now : Int) : Prop :=
  match alistGet st k with
  | none => False
  | some (.wrapped e _) => ¬(e ≠ maxInt64 ∧ now > e)
  | some (.legacy _) => True

/-- An upstream world that reports a value for key `"k"` and not-found for
every other key. -/
def worldFoundK : String → HTTPResult :=
  fun _ => .reply 200 (.good "OK" "" [("k", some (.num 1))])

/-- A store with three entries expired at time 10 (`"a"`, `"c"`, `"e"`), one
infinite entry and one undecodable entry. -/
def stC7 : Store :=
  [("a", .wrapped 5 .null), ("b", .wrapped maxInt64 .null),
   ("c", .wrapped 7 .null), ("d", .legacy .null), ("e", .wrapped 6 .null)]

/-- An upstream world answering 404 for every key. -/
def worldAll404 : String → HTTPResult := fun _ => http404

/-- An upstream world answering 500 for every key. -/
def worldAll500 : String → HTTPResult := fun _ => http500

/-- The modular `Client.Fetch` against `worldAll500`. -/
def fetch500 : String → Except String (Option Jraw) := fun k => Upstream.Fetch http500 k

/-- A modular upstream fetch that finds the same value for every key. -/
def fetchFound (v : Jraw) : String → Except String (Option Jraw) := fun _ => .ok (some v)

/-- The result of `json.Unmarshal` on a payload that is not valid JSON. -/
def decodeFail : List Nat → Except String Request := fun _ => .error "invalid character"

/-- A two-entry store: one infinite entry and one entry expired at time 10. -/
def stC2 : Store := [("j", .wrapped maxInt64 .null), ("k", .wrapped 5 (.str "w"))]

/-- The modular `serveFn` of `cmd/kvstore/main.go` on a decoded request:
`Handler.Serve` over the real RocksDB datastore, no upstream, infinite ttl,
at time 0. -/
def serveFn0 (s : Store) (req : Request) : Resp × Store :=
  ((Handler.Serve (rocksDS 0) 0 none s req).1, (Handler.Serve (rocksDS 0) 0 none s req).2.1)

/-! ### Association-list and store helper lemmas -/

theorem alistGet_storePut_self (st : Store) (k : String) (v : StoredBytes) :
    alistGet (storePut st k v) k = some v := by
  induction st with
  | nil => simp [storePut, alistGet]
  | cons hd tl ih =>
    obtain ⟨k1, v1⟩ := hd
    by_cases h : k1 = k
    · subst h; simp [storePut, alistGet]
    · simp [storePut, alistGet, h, ih]

theorem alistGet_storePut_ne (st : Store) (k k2 : String) (v : StoredBytes)
    (h : k2 ≠ k) : alistGet (storePut st k v) k2 = alistGet st k2 := by
  induction st with
  | nil => simp [storePut, alistGet, Ne.symm h]
  | cons hd tl ih =>
    obtain ⟨k1, v1⟩ := hd
    by_cases h1 : k1 = k
    · subst h1
      simp [storePut, alistGet, Ne.symm h]
    · simp [storePut, alistGet, h1, ih]

theorem alistGet_storeDel_ne (st : Store) (k k2 : String) (h : k2 ≠ k) :
    alistGet (storeDel st k) k2 = alistGet st k2 := by
  induction st with
  | nil => simp [storeDel, alistGet]
  | cons hd tl ih =>
    obtain ⟨k1, v1⟩ := hd
    by_cases h1 : k1 = k
    · subst h1; simp [storeDel, alistGet, Ne.symm h, ih]
    · simp [storeDel, alistGet, h1, ih]

theorem alistGet_mem (st : Store) (k : String) (v : StoredBytes)
    (h : alistGet st k = some v) : (k, v) ∈ st := by
  induction st with
  | nil => simp [alistGet] at h
  | cons hd tl ih =>
    obtain ⟨k1, v1⟩ := hd
    by_cases h1 : k1 = k
    · subst h1
      simp [alistGet] at h
      simp [h]
    · simp [alistGet, h1] at h
      exact List.mem_cons_of_mem _ (ih h)

/-! ### Janitor scan helper lemmas -/

theorem expiredKeys_cons (now : Int) (p : String × StoredBytes) (rest : Store) :
    expiredKeys now (p :: rest)
      = if expiredAt now p.2 then p.1 :: expiredKeys now rest
        else expiredKeys now rest := by
  simp only [expiredKeys, List.filter_cons]
  split <;> simp

theorem cleanerScan_join (now : Int) (chunk : Nat) (st : Store) :
    ∀ batch : List String,
      (Mono.cleanerScan now chunk st batch batch.length).flatten
        = batch ++ expiredKeys now st := by
  induction st with
  | nil =>
    intro batch
    cases batch <;> simp [Mono.cleanerScan, expiredKeys]
  | cons hd rest ih =>
    intro batch
    obtain ⟨k, v⟩ := hd
    by_cases hexp : expiredAt now v
    · by_cases hch : chunk ≤ batch.length + 1
      · have h0 := ih []
        simp only [List.length_nil] at h0
        simp [Mono.cleanerScan, hexp, hch, expiredKeys_cons, h0]
      · have h1 := ih (batch ++ [k])
        simp only [List.length_append, List.length_cons, List.length_nil] at h1
        simp [Mono.cleanerScan, hexp, hch, expiredKeys_cons, h1]
    · by_cases hch : chunk ≤ batch.length
      · have h0 := ih []
        simp only [List.length_nil] at h0
        simp [Mono.cleanerScan, hexp, hch, expiredKeys_cons, h0]
      · simp [Mono.cleanerScan, hexp, hch, expiredKeys_cons, ih batch]

theorem cleanerScan_length (now : Int) (chunk : Nat) (st : Store) :
    ∀ (batch : List String) (count : Nat), count < chunk →
      (Mono.cleanerScan now chunk st batch count).length
        = (count + (expiredKeys now st).length + chunk - 1) / chunk := by
  induction st with
  | nil =>
    intro batch count hlt
    have hpos : 0 < chunk := lt_of_le_of_lt (Nat.zero_le count) hlt
    by_cases hc : 0 < count
    · have h1 : (count + (expiredKeys now ([] : Store)).length + chunk - 1) / chunk = 1 := by
        apply Nat.div_eq_of_lt_le
        · simpa [expiredKeys] using by omega
        · simp [expiredKeys]; omega
      simp [Mono.cleanerScan, hc, h1]
    · have hc0 : count = 0 := by omega
      subst hc0
      have h1 : (0 + (expiredKeys now ([] : Store)).length + chunk - 1) / chunk = 0 := by
        apply Nat.div_eq_of_lt
        simp [expiredKeys]; omega
      simpa [Mono.cleanerScan] using h1.symm
  | cons hd rest ih =>
    intro batch count hlt
    have hpos : 0 < chunk := lt_of_le_of_lt (Nat.zero_le count) hlt
    obtain ⟨k, v⟩ := hd
    by_cases hexp : expiredAt now v
    · by_cases hch : chunk ≤ count + 1
      · have hcount : count + 1 = chunk := by omega
        have h0 := ih [] 0 hpos
        have hnum : count + (expiredKeys now ((k, v) :: rest)).length + chunk - 1
            = (0 + (expiredKeys now rest).length + chunk - 1) + chunk := by
          simp only [expiredKeys_cons, hexp, if_pos, List.length_cons]
          omega
        simp only [Mono.cleanerScan, hexp, if_pos, hch, if_true, List.length_cons, h0, hnum,
          Nat.add_div_right _ hpos]
      · have h1 := ih (batch ++ [k]) (count + 1) (by omega)
        have hnum : count + (expiredKeys now ((k, v) :: rest)).length + chunk - 1
            = count + 1 + (expiredKeys now rest).length + chunk - 1 := by
          simp only [expiredKeys_cons, hexp, if_pos, List.length_cons]
          omega
        simp only [Mono.cleanerScan, hexp, if_pos, hch, if_false, h1, hnum]
    · by_cases hch : chunk ≤ count
      · omega
      · have h1 := ih batch count hlt
        have hnum : count + (expiredKeys now ((k, v) :: rest)).length + chunk - 1
            = count + (expiredKeys now rest).length + chunk - 1 := by
          simp only [expiredKeys_cons, hexp, if_neg, List.length_cons]
          simp [hexp]
        simpa [Mono.cleanerScan, hexp, hch, hnum] using h1

/-! ### C9 -/

/-- C9: at the exact instant `now = expiry` (finite), a GET still treats the
entry as live and returns its value — the liveness test of `readEntry` and
`RocksDB.Get` is the strict `now > expiry` — while the janitor scan of
`startCleaner` at the same instant classifies the entry as expired
(`expiry <= now`) and includes its key in a flushed delete batch. -/
theorem expiryInstant_getLive_janitorDeletes (st : Store) (k : String) (v : Jraw)
    (e ttl : Int) (mode : Bool) (chunk : Nat)
    (hs : alistGet st k = some (.wrapped e v)) (hfin : e ≠ maxInt64) :
    Mono.readEntry st k e ttl mode = (some v, st) ∧
    Datastore.Get st k e = (.ok (some v), st) ∧
    expiredAt e (.wrapped e v) = true ∧
    k ∈ (Mono.cleanerScan e chunk st [] 0).flatten := by
  have hmem := alistGet_mem st k _ hs
  have hexp : expiredAt e (.wrapped e v) = true := by
    simp [expiredAt, hfin]
  refine ⟨?_, ?_, hexp, ?_⟩
  · simp [Mono.readEntry, hs]
  · simp [Datastore.Get, hs]
  · have hj := cleanerScan_join e chunk st []
    simp only [List.length_nil, List.nil_append] at hj
    rw [hj]
    exact List.mem_map.mpr ⟨(k, .wrapped e v), List.mem_filter.mpr ⟨hmem, hexp⟩, rfl⟩

/-- Witness for C9 at the concrete store `stExpired` and instant 5. -/
theorem expiryInstant_getLive_janitorDeletes_witness :
    Mono.readEntry stExpired "k" 5 0 true = (some (.str "w"), stExpired) ∧
    Datastore.Get stExpired "k" 5 = (.ok (some (.str "w")), stExpired) ∧
    expiredAt 5 (.wrapped 5 (.str "w")) = true ∧
    "k" ∈ (Mono.cleanerScan 5 2 stExpired [] 0).flatten :=
  expiryInstant_getLive_janitorDeletes stExpired "k" (.str "w") 5 0 true 2
    (by decide) (by decide)

/-! ### C10 -/

/-- C10: in `Handler.Serve`, when the datastore write that memoizes an
upstream-fetched value fails during cache-aside populate, the error is
silently discarded (`_ = h.DB.Put(...)`): the GET still answers OK carrying
the upstream value, exactly one upstream fetch happened, and the local store
is left unpopulated (unchanged empty). -/
theorem populatePutFailure_silentlyDiscarded (k : String) (v : Jraw) (ttl now : Int) :
    Handler.Serve (failPutDS now) ttl (some (fetchFound v)) ([] : Store)
        ⟨"GET", [k], []⟩
      = (okData [(k, some (canon v))], ([] : Store), [k]) := by
  simp [Handler.Serve, Handler.serveGetLoop, failPutDS, Datastore.Get, alistGet,
    fetchFound, upsert]

/-! ### C7 -/

/-- C7: the monolithic janitor (`startCleaner`) behaves as claimed: one scan
over any store with chunk size `C > 0` flushes exactly `ceil(N/C) =
(N + C - 1) / C` delete batches, whose concatenation is exactly the keys of
the `N` expired entries (so applying them deletes all and only those); the
modular janitor (`cleaner.runOnce`), however, lists the entries, discards the
result, issues no delete batch and leaves the store untouched — shown on the
concrete store `stExpired`, which at time 10 holds one expired entry, where
the claim demands `ceil(1/1000) = 1` batch deleting key `"k"`. -/
theorem janitorChunk_monoCeil_modularStub :
    (∀ (st : Store) (now : Int) (chunk : Nat), 0 < chunk →
        (Mono.cleanerScan now chunk st [] 0).length
            = ((expiredKeys now st).length + chunk - 1) / chunk ∧
        (Mono.cleanerScan now chunk st [] 0).flatten = expiredKeys now st) ∧
    Cleaner.runOnce stExpired 10 1000 = (stExpired, []) ∧
    expiredKeys 10 stExpired = ["k"] := by
  refine ⟨fun st now chunk hch => ⟨?_, ?_⟩, by decide, by decide⟩
  · have h := cleanerScan_length now chunk st [] 0 hch
    simpa using h
  · have h := cleanerScan_join now chunk st []
    simpa using h

/-- Witness for C7 on the concrete store `stC7` (3 expired keys, chunk 2:
2 batches covering exactly `["a", "c", "e"]`). -/
theorem janitorChunk_monoCeil_modularStub_witness :
    (Mono.cleanerScan 10 2 stC7 [] 0).length
        = ((expiredKeys 10 stC7).length + 2 - 1) / 2 ∧
    (Mono.cleanerScan 10 2 stC7 [] 0).flatten = expiredKeys 10 stC7 :=
  janitorChunk_monoCeil_modularStub.1 stC7 10 2 (by decide)

/-! ### C1 -/

/-- C1 counterexample: on the store `stLegacy`, whose single entry's bytes
fail to decode as the Entry wrapper, a GET does NOT treat the entry as
absent: the monolithic `readEntry` returns the malformed bytes as a hit
(authority-of-record mode), and the modular `RocksDB.Get` propagates the
decode failure, which `Handler.Serve` surfaces as a request-level ERR. -/
theorem decodeFailure_cex :
    Mono.readEntry stLegacy "k" 0 0 true = (some (.str "w"), stLegacy) ∧
    Datastore.Get stLegacy "k" 0
      = (.error "json: cannot unmarshal into DBEntry", stLegacy) ∧
    (Handler.Serve (rocksDS 0) 0 none stLegacy ⟨"GET", ["k"], []⟩).1
      = errResp "json: cannot unmarshal into DBEntry" := by decide

/-- C1 amended: bytes failing the wrapper decode are never treated as absent.
The monolithic `readEntry` treats them as a legacy raw entry and returns them
as a hit — as-is in authority-of-record mode, rewritten through `writeEntry`
and returned in ephemeral mode; the modular `RocksDB.Get` returns the decode
error, and `Handler.Serve` turns it into a request-level ERR response. -/
theorem decodeFailure_behavior (st : Store) (k : String) (b : Jraw) (now ttl : Int)
    (hs : alistGet st k = some (.legacy b)) :
    Mono.readEntry st k now ttl true = (some b, st) ∧
    Mono.readEntry st k now ttl false
      = (some b, Mono.writeEntry st k b now ttl false) ∧
    Datastore.Get st k now = (.error "json: cannot unmarshal into DBEntry", st) ∧
    (Handler.Serve (rocksDS now) ttl none st ⟨"GET", [k], []⟩).1
      = errResp "json: cannot unmarshal into DBEntry" := by
  refine ⟨by simp [Mono.readEntry, hs], by simp [Mono.readEntry, hs],
    by simp [Datastore.Get, hs], ?_⟩
  simp [Handler.Serve, Handler.serveGetLoop, rocksDS, Datastore.Get, hs]

/-- Witness for C1 on `stLegacy` at time 3 with ttl 7. -/
theorem decodeFailure_behavior_witness :
    Mono.readEntry stLegacy "k" 3 7 true = (some (.str "w"), stLegacy) ∧
    Mono.readEntry stLegacy "k" 3 7 false
      = (some (.str "w"), Mono.writeEntry stLegacy "k" (.str "w") 3 7 false) ∧
    Datastore.Get stLegacy "k" 3
      = (.error "json: cannot unmarshal into DBEntry", stLegacy) ∧
    (Handler.Serve (rocksDS 3) 7 none stLegacy ⟨"GET", ["k"], []⟩).1
      = errResp "json: cannot unmarshal into DBEntry" :=
  decodeFailure_behavior stLegacy "k" (.str "w") 3 7 (by decide)

/-! ### C2 helper lemmas -/

theorem listAllEntries_mem_key (st : Store) (now : Int) (mode : Bool) (k : String)
    (w : Option Jraw) (h : (k, w) ∈ Mono.listAllEntries st now mode) :
    k ∈ st.map Prod.fst := by
  induction st with
  | nil => simp [Mono.listAllEntries] at h
  | cons hd rest ih =>
    obtain ⟨k1, v1⟩ := hd
    cases v1 with
    | wrapped e v =>
      simp only [Mono.listAllEntries] at h
      split at h
      · rcases List.mem_cons.mp h with h1 | h1
        · simp only [Prod.mk.injEq] at h1
          simp [h1.1]
        · simp [ih h1]
      · simp [ih h]
    | legacy b =>
      simp only [Mono.listAllEntries] at h
      split at h
      · rcases List.mem_cons.mp h with h1 | h1
        · simp only [Prod.mk.injEq] at h1
          simp [h1.1]
        · simp [ih h1]
      · simp [ih h]

theorem dsListAll_mem_key (st : Store) (now : Int) (k : String)
    (w : Option Jraw) (h : (k, w) ∈ Datastore.listAll st now) :
    k ∈ st.map Prod.fst := by
  induction st with
  | nil => simp [Datastore.listAll] at h
  | cons hd rest ih =>
    obtain ⟨k1, v1⟩ := hd
    cases v1 with
    | wrapped e v =>
      simp only [Datastore.listAll] at h
      split at h
      · rcases List.mem_cons.mp h with h1 | h1
        · simp only [Prod.mk.injEq] at h1
          simp [h1.1]
        · simp [ih h1]
      · simp [ih h]
    | legacy b =>
      simp only [Datastore.listAll] at h
      simp [ih h]

theorem listAllEntries_mem_cons (now : Int) (mode : Bool) (k k1 : String)
    (v1 : StoredBytes) (rest : Store) (w : Option Jraw)
    (h : (k, w) ∈ Mono.listAllEntries ((k1, v1) :: rest) now mode) :
    k = k1 ∨ (k, w) ∈ Mono.listAllEntries rest now mode := by
  cases v1 with
  | wrapped e v =>
    simp only [Mono.listAllEntries] at h
    split at h
    · rcases List.mem_cons.mp h with h1 | h1
      · simp only [Prod.mk.injEq] at h1; exact Or.inl h1.1
      · exact Or.inr h1
    · exact Or.inr h
  | legacy b =>
    simp only [Mono.listAllEntries] at h
    split at h
    · rcases List.mem_cons.mp h with h1 | h1
      · simp only [Prod.mk.injEq] at h1; exact Or.inl h1.1
      · exact Or.inr h1
    · exact Or.inr h

theorem dsListAll_mem_cons (now : Int) (k k1 : String)
    (v1 : StoredBytes) (rest : Store) (w : Option Jraw)
    (h : (k, w) ∈ Datastore.listAll ((k1, v1) :: rest) now) :
    k = k1 ∨ (k, w) ∈ Datastore.listAll rest now := by
  cases v1 with
  | wrapped e v =>
    simp only [Datastore.listAll] at h
    split at h
    · rcases List.mem_cons.mp h with h1 | h1
      · simp only [Prod.mk.injEq] at h1; exact Or.inl h1.1
      · exact Or.inr h1
    · exact Or.inr h
  | legacy b =>
    simp only [Datastore.listAll] at h
    exact Or.inr h

theorem listAllEntries_expired_not_mem (now : Int) (k : String) (v : Jraw) (e : Int)
    (hfin : e ≠ maxInt64) (hpast : e < now) :
    ∀ st : Store, alistGet st k = some (.wrapped e v) →
      (st.map Prod.fst).Nodup → ∀ w, (k, w) ∉ Mono.listAllEntries st now false := by
  intro st
  induction st with
  | nil => intro hs _ w; simp [alistGet] at hs
  | cons hd rest ih =>
    obtain ⟨k1, v1⟩ := hd
    intro hs hnd w hmem
    simp only [List.map_cons, List.nodup_cons] at hnd
    by_cases h1 : k1 = k
    · subst h1
      have hv : v1 = .wrapped e v := by simpa [alistGet] using hs
      subst hv
      have hcond : ¬((false : Bool) = true ∨ e = maxInt64 ∨ e > now) := by
        simp [hfin]; omega
      simp only [Mono.listAllEntries, if_neg hcond] at hmem
      exact hnd.1 (listAllEntries_mem_key rest now false k1 w hmem)
    · rcases listAllEntries_mem_cons now false k k1 v1 rest w hmem with h2 | h2
      · exact h1 h2.symm
      · have hs' : alistGet rest k = some (.wrapped e v) := by
          simpa [alistGet, h1] using hs
        exact ih hs' hnd.2 w h2

theorem dsListAll_expired_not_mem (now : Int) (k : String) (v : Jraw) (e : Int)
    (hfin : e ≠ maxInt64) (hpast : e < now) :
    ∀ st : Store, alistGet st k = some (.wrapped e v) →
      (st.map Prod.fst).Nodup → ∀ w, (k, w) ∉ Datastore.listAll st now := by
  intro st
  induction st with
  | nil => intro hs _ w; simp [alistGet] at hs
  | cons hd rest ih =>
    obtain ⟨k1, v1⟩ := hd
    intro hs hnd w hmem
    simp only [List.map_cons, List.nodup_cons] at hnd
    by_cases h1 : k1 = k
    · subst h1
      have hv : v1 = .wrapped e v := by simpa [alistGet] using hs
      subst hv
      have hcond : ¬(e = maxInt64 ∨ e > now) := by simp [hfin]; omega
      simp only [Datastore.listAll, if_neg hcond] at hmem
      exact hnd.1 (dsListAll_mem_key rest now k1 w hmem)
    · rcases dsListAll_mem_cons now k k1 v1 rest w hmem with h2 | h2
      · exact h1 h2.symm
      · have hs' : alistGet rest k = some (.wrapped e v) := by
          simpa [alistGet, h1] using hs
        exact ih hs' hnd.2 w h2

theorem listAllEntries_replica_mem (now : Int) (k : String) (v : Jraw) (e : Int) :
    ∀ st : Store, alistGet st k = some (.wrapped e v) →
      (k, some (canon v)) ∈ Mono.listAllEntries st now true := by
  intro st
  induction st with
  | nil => intro hs; simp [alistGet] at hs
  | cons hd rest ih =>
    obtain ⟨k1, v1⟩ := hd
    intro hs
    by_cases h1 : k1 = k
    · subst h1
      have hv : v1 = .wrapped e v := by simpa [alistGet] using hs
      subst hv
      simp [Mono.listAllEntries]
    · have hs' : alistGet rest k = some (.wrapped e v) := by
        simpa [alistGet, h1] using hs
      cases v1 <;> simp [Mono.listAllEntries, ih hs']

/-! ### C2 -/

/-- C2 counterexample: the store `stExpired` holds one wrapped entry with
finite expiry 5, in the past at time 10 — yet the monolithic LIST in
authority-of-record mode (`listAllEntries` with `replicaMode = true`)
includes the key, where the claim requires LIST to omit it. -/
theorem expiredEntry_cex :
    alistGet stExpired "k" = some (.wrapped 5 (.str "w")) ∧
    (5 : Int) ≠ maxInt64 ∧ (5 : Int) < 10 ∧
    Mono.listAllEntries stExpired 10 true = [("k", some (.str "w"))] := by decide

/-- C2 amended: an entry with finite past expiry is logically absent from GET
in both modes and both variants (`readEntry` and `RocksDB.Get` miss and
delete it), and absent from the ephemeral-mode monolithic LIST and from the
modular `RocksDB.List`; but the monolithic LIST in authority-of-record mode
(`replicaMode = true`) still includes every parsed wrapper, this one
included. -/
theorem expiredEntry_behavior (st : Store) (k : String) (v : Jraw) (e now ttl : Int)
    (hs : alistGet st k = some (.wrapped e v)) (hfin : e ≠ maxInt64)
    (hpast : e < now) (hnd : (st.map Prod.fst).Nodup) :
    (∀ mode, Mono.readEntry st k now ttl mode = (none, storeDel st k)) ∧
    Datastore.Get st k now = (.ok none, storeDel st k) ∧
    (∀ w, (k, w) ∉ Mono.listAllEntries st now false) ∧
    (∀ w, (k, w) ∉ Datastore.listAll st now) ∧
    (k, some (canon v)) ∈ Mono.listAllEntries st now true := by
  refine ⟨fun mode => ?_, ?_,
    fun w => listAllEntries_expired_not_mem now k v e hfin hpast st hs hnd w,
    fun w => dsListAll_expired_not_mem now k v e hfin hpast st hs hnd w,
    listAllEntries_replica_mem now k v e st hs⟩
  · simp [Mono.readEntry, hs, hfin, hpast]
  · simp [Datastore.Get, hs, hfin, hpast]

/-- Witness for C2 on the two-entry store `stC2` at time 10. -/
theorem expiredEntry_behavior_witness :
    Mono.readEntry stC2 "k" 10 0 false = (none, storeDel stC2 "k") ∧
    Datastore.Get stC2 "k" 10 = (.ok none, storeDel stC2 "k") ∧
    ("k", some (Jraw.str "w")) ∉ Mono.listAllEntries stC2 10 false ∧
    ("k", some (Jraw.str "w")) ∉ Datastore.listAll stC2 10 ∧
    ("k", some (canon (Jraw.str "w"))) ∈ Mono.listAllEntries stC2 10 true := by
  have h := expiredEntry_behavior stC2 "k" (.str "w") 5 10 0
    (by decide) (by decide) (by decide) (by decide)
  exact ⟨h.1 false, h.2.1, h.2.2.1 _, h.2.2.2.1 _, h.2.2.2.2⟩

/-! ### C3 -/

/-- C3 counterexample: an UPDATE in authority-of-record mode (no upstream)
with finite configured ttl 5 at time 0 stores `expiry = math.MaxInt64`
(INFINITE), not `now + ttl`, because `writeEntry` forces INFINITE whenever
`replicaMode` is true. -/
theorem writeExpiry_cex :
    (Mono.handleRequest [] ⟨"UPDATE", [], [("k", some .null)]⟩ 0 5 none).2.1
      = [("k", .wrapped maxInt64 .null)] ∧
    maxInt64 ≠ (0 : Int) + 5 := by decide

/-- C3 amended: the stored expiry is `now + ttl` for finite `ttl ≠ 0` and
INFINITE for `ttl = 0` in the monolithic ephemeral mode and in the modular
`RocksDB.Put` (which is mode-independent); but the monolithic
authority-of-record mode stores INFINITE regardless of the configured ttl. -/
theorem writeExpiry_behavior (st : Store) (k : String) (raw : Jraw) (now ttl : Int)
    (httl : ttl ≠ 0) :
    alistGet (Mono.writeEntry st k raw now ttl false) k
      = some (.wrapped (now + ttl) raw) ∧
    alistGet (Datastore.Put st k raw now ttl) k = some (.wrapped (now + ttl) raw) ∧
    alistGet (Mono.writeEntry st k raw now 0 false) k = some (.wrapped maxInt64 raw) ∧
    alistGet (Datastore.Put st k raw now 0) k = some (.wrapped maxInt64 raw) ∧
    alistGet (Mono.writeEntry st k raw now ttl true) k = some (.wrapped maxInt64 raw) := by
  refine ⟨?_, ?_, ?_, ?_, ?_⟩ <;>
    simp [Mono.writeEntry, Datastore.Put, httl, alistGet_storePut_self]

/-- Witness for C3 at time 3 with ttl 7 on the empty store. -/
theorem writeExpiry_behavior_witness :
    alistGet (Mono.writeEntry [] "k" .null 3 7 false) "k"
      = some (.wrapped (3 + 7) .null) ∧
    alistGet (Datastore.Put [] "k" .null 3 7) "k" = some (.wrapped (3 + 7) .null) ∧
    alistGet (Mono.writeEntry [] "k" .null 3 0 false) "k"
      = some (.wrapped maxInt64 .null) ∧
    alistGet (Datastore.Put [] "k" .null 3 0) "k" = some (.wrapped maxInt64 .null) ∧
    alistGet (Mono.writeEntry [] "k" .null 3 7 true) "k"
      = some (.wrapped maxInt64 .null) :=
  writeExpiry_behavior [] "k" .null 3 7 (by decide)

/-! ### C4 -/

/-- C4: the modular `Client.Fetch` swallows upstream errors that the claim
(and the monolithic `fetchFromUpstream`) treats as request failures: an HTTP
500 — and likewise an `ERR` upstream envelope — comes back as a clean miss
`(nil, false, nil)` (the non-404 branch returns the same triple as the 404
branch), so `Handler.Serve` answers OK with a null for the key instead of
failing the GET; the monolithic path errors the whole request, as claimed. -/
theorem upstreamError_swallowed_modular :
    Upstream.Fetch http500 "k" = .ok none ∧
    Handler.Serve (rocksDS 0) 0 (some fetch500) ([] : Store) ⟨"GET", ["k"], []⟩
      = (okData [("k", none)], ([] : Store), ["k"]) ∧
    Upstream.Fetch (.reply 200 (.good "ERR" "boom" [])) "k" = .ok none ∧
    Mono.fetchFromUpstream http500 "k" = .error "upstream status 500" ∧
    (Mono.handleRequest [] ⟨"GET", ["k"], []⟩ 0 0 (some worldAll500)).1
      = errResp "upstream status 500" := by decide

/-! ### C6 -/

/-- C6 counterexample: `UPDATE({"k": {"b":1,"a":2}})` followed by
`GET(["k"])` (replica mode, infinite ttl, same instant) answers with the
object's fields re-ordered to sorted key order — the payload is not returned
byte-exactly. -/
theorem roundTrip_reordered_cex :
    (Mono.handleRequest
        ((Mono.handleRequest [] ⟨"UPDATE", [], [("k", some vObj)]⟩ 0 0 none).2.1)
        ⟨"GET", ["k"], []⟩ 0 0 none).1
      = okData [("k", some vObjSorted)] ∧
    vObjSorted ≠ vObj := by decide

/-- C6 amended: UPDATE stores the payload byte-exactly (the wrapper's value
is exactly `v`), and a GET before expiry returns the JSON value `canon v` —
equivalent to `v` but with object fields deduplicated and re-emitted in
sorted key order and formatting normalized, because the GET path decodes into
`interface{}` and re-marshals; byte-exactness holds only for payloads fixed
by `canon`. -/
theorem roundTrip_behavior (st : Store) (k : String) (v : Jraw)
    (now now2 ttl : Int) (up : Option (String → HTTPResult))
    (hlive : up.isNone = true ∨ ttl = 0 ∨ now2 < now + ttl) :
    alistGet (Mono.handleRequest st ⟨"UPDATE", [], [(k, some v)]⟩ now ttl up).2.1 k
      = some (.wrapped (if up.isNone ∨ ttl = 0 then maxInt64 else now + ttl) v) ∧
    (Mono.handleRequest
        (Mono.handleRequest st ⟨"UPDATE", [], [(k, some v)]⟩ now ttl up).2.1
        ⟨"GET", [k], []⟩ now2 ttl up).1
      = okData [(k, some (canon v))] := by
  have hw : (Mono.handleRequest st ⟨"UPDATE", [], [(k, some v)]⟩ now ttl up).2.1
      = Mono.writeEntry st k v now ttl up.isNone := by
    simp [Mono.handleRequest, Mono.updateLoop]
  have hget : alistGet (Mono.writeEntry st k v now ttl up.isNone) k
      = some (.wrapped (if up.isNone ∨ ttl = 0 then maxInt64 else now + ttl) v) := by
    simp [Mono.writeEntry, alistGet_storePut_self]
  have hlive2 : ¬((if up.isNone ∨ ttl = 0 then maxInt64 else now + ttl) ≠ maxInt64 ∧
      now2 > (if up.isNone ∨ ttl = 0 then maxInt64 else now + ttl)) := by
    rcases hlive with h | h | h
    · simp [h]
    · simp [h]
    · by_cases hc : up.isNone = true ∨ ttl = 0
      · rw [if_pos hc]; simp
      · rw [if_neg hc]
        intro hand
        obtain ⟨h1, h2⟩ := hand
        omega
  have hre : Mono.readEntry (Mono.writeEntry st k v now ttl up.isNone) k now2 ttl up.isNone
      = (some v, Mono.writeEntry st k v now ttl up.isNone) := by
    simp only [Mono.readEntry, hget]
    rw [if_neg hlive2]
  refine ⟨by rw [hw, hget], ?_⟩
  rw [hw]
  simp [Mono.handleRequest, Mono.getLoop, hre, upsert]

/-- Witness for C6: replica mode, ttl 5, write at 0, read at 1. -/
theorem roundTrip_behavior_witness :
    alistGet (Mono.handleRequest []
        ⟨"UPDATE", [], [("k", some (Jraw.str "w"))]⟩ 0 5 none).2.1 "k"
      = some (.wrapped maxInt64 (.str "w")) ∧
    (Mono.handleRequest
        (Mono.handleRequest [] ⟨"UPDATE", [], [("k", some (Jraw.str "w"))]⟩ 0 5 none).2.1
        ⟨"GET", ["k"], []⟩ 1 5 none).1
      = okData [("k", some (canon (.str "w")))] := by
  have h := roundTrip_behavior [] "k" (.str "w") 0 1 5 none (Or.inl rfl)
  simpa using h

/-! ### C8 helper lemmas -/

theorem lenBE_length (n : Nat) : (KV.lenBE n).length = 4 := rfl

theorem be32_lenBE (n : Nat) (h : n < 4294967296) : KV.be32 (KV.lenBE n) = n := by
  simp only [KV.be32, KV.lenBE, List.foldl]
  omega

theorem frame_take4 (p rest : List Nat) :
    ((KV.mkFrame p ++ rest).take 4 = KV.lenBE p.length) ∧
    ((KV.mkFrame p ++ rest).drop 4 = p ++ rest) := by
  have h1 : KV.mkFrame p ++ rest = KV.lenBE p.length ++ (p ++ rest) := by
    simp [KV.mkFrame]
  rw [h1]
  constructor
  · have := List.take_left (KV.lenBE p.length) (p ++ rest)
    rwa [lenBE_length] at this
  · have := List.drop_left (KV.lenBE p.length) (p ++ rest)
    rwa [lenBE_length] at this

/-! ### C8 -/

/-- C8 counterexample: the modular socket handler (`cmd/kvstore/main.go`),
given one well-framed payload that fails to decode as a request envelope,
writes NO response on the connection (no ERR) and serves nothing further —
against the claim's ERR response and continued loop. -/
theorem framedSocket_cex :
    decodeFail [1, 2] = .error "invalid character" ∧
    KV.kvConnServe decodeFail serveFn0 ([] : Store) (KV.mkFrame [1, 2])
      = ([], []) := by decide

/-- C8 amended: the monolithic socket loop behaves as claimed — a framed
payload the envelope decoder rejects yields an ERR response on the same
connection and the loop continues with the remaining bytes, while a stream
too short for the 4-byte header (a failed read) silently terminates the
loop; the modular per-connection handler of `cmd/kvstore` instead serves at
most one frame and, when the payload fails to decode, closes the connection
with no response at all. -/
theorem framedLoop_behavior (decode : List Nat → Except String Request)
    (serveFn : Store → Request → Resp × Store)
    (now ttl : Int) (up : Option (String → HTTPResult)) (st : Store)
    (p rest : List Nat) (e : String) (hd : decode p = .error e)
    (hlen : p.length < 4294967296) :
    KV.monoConnLoop decode now ttl up st (KV.mkFrame p ++ rest)
      = (errResp e :: (KV.monoConnLoop decode now ttl up st rest).1,
         (KV.monoConnLoop decode now ttl up st rest).2) ∧
    (∀ stream : List Nat, stream.length < 4 →
        KV.monoConnLoop decode now ttl up st stream = ([], st)) ∧
    KV.kvConnServe decode serveFn st (KV.mkFrame p ++ rest) = ([], st) := by
  obtain ⟨htake, hdrop⟩ := frame_take4 p rest
  have hbe : KV.be32 ((KV.mkFrame p ++ rest).take 4) = p.length := by
    rw [htake]; exact be32_lenBE p.length hlen
  have hlen4 : 4 ≤ (KV.mkFrame p ++ rest).length := by
    simp [KV.mkFrame, KV.lenBE]
  have hplen : p.length ≤ ((KV.mkFrame p ++ rest).drop 4).length := by
    rw [hdrop]; simp
  have htakep : ((KV.mkFrame p ++ rest).drop 4).take p.length = p := by
    rw [hdrop]; exact List.take_left p rest
  have hdropp : ((KV.mkFrame p ++ rest).drop 4).drop p.length = rest := by
    rw [hdrop]; exact List.drop_left p rest
  refine ⟨?_, ?_, ?_⟩
  · rw [KV.monoConnLoop]
    simp only [hbe, htakep, hdropp, hlen4, dif_pos, hplen, hd]
  · intro stream hs
    rw [KV.monoConnLoop]
    have : ¬ 4 ≤ stream.length := by omega
    simp only [this, dif_neg, not_false_iff]
  · simp only [KV.kvConnServe, hbe, htakep, hlen4, if_pos, hplen, hd]

/-- Witness for C8: a two-frame stream whose first payload fails to decode
produces ERR-then-continue in the monolithic loop, a short stream ends the
loop, and the modular handler answers nothing. -/
theorem framedLoop_behavior_witness :
    KV.monoConnLoop decodeFail 0 0 none [] (KV.mkFrame [7] ++ KV.mkFrame [8])
      = (errResp "invalid character"
          :: (KV.monoConnLoop decodeFail 0 0 none [] (KV.mkFrame [8])).1,
         (KV.monoConnLoop decodeFail 0 0 none [] (KV.mkFrame [8])).2) ∧
    KV.monoConnLoop decodeFail 0 0 none [] [9, 9] = ([], []) ∧
    KV.kvConnServe decodeFail serveFn0 ([] : Store) (KV.mkFrame [7] ++ KV.mkFrame [8])
      = ([], []) := by
  have h := framedLoop_behavior decodeFail serveFn0 0 0 none [] [7] (KV.mkFrame [8])
    "invalid character" (by decide) (by decide)
  exact ⟨h.1, h.2.1 [9, 9] (by decide), h.2.2⟩

/-! ### C5 helper lemmas -/

theorem liveKey_hit (st : Store) (k : String) (now ttl : Int)
    (h : liveKey st k now) :
    (Mono.readEntry st k now ttl false).1.isSome = true := by
  unfold liveKey at h
  unfold Mono.readEntry
  rcases hg : alistGet st k with _ | v
  · rw [hg] at h
    exact (h : False).elim
  · cases v with
    | wrapped e w =>
      rw [hg] at h
      replace h : ¬(e ≠ maxInt64 ∧ now > e) := h
      show (if e ≠ maxInt64 ∧ now > e then ((none : Option Jraw), storeDel st k)
          else (some w, st)).1.isSome = true
      rw [if_neg h]
      rfl
    | legacy b =>
      show (if (false : Bool) = true then ((some b : Option Jraw), st)
          else (some b, Mono.writeEntry st k b now ttl false)).1.isSome = true
      rfl

theorem readEntry_other_key (st : Store) (key k : String) (now ttl : Int)
    (mode : Bool) (hne : k ≠ key) :
    alistGet (Mono.readEntry st key now ttl mode).2 k = alistGet st k := by
  unfold Mono.readEntry
  rcases h : alistGet st key with _ | v
  · simp
  · cases v with
    | wrapped e w =>
      by_cases hexp : e ≠ maxInt64 ∧ now > e
      · simp [hexp, alistGet_storeDel_ne st key k hne]
      · simp [hexp]
    | legacy b =>
      cases mode with
      | true => simp
      | false => simp [Mono.writeEntry, alistGet_storePut_ne _ _ _ _ hne]

theorem writeEntry_live (st : Store) (k : String) (raw : Jraw) (now ttl : Int)
    (httl : 0 ≤ ttl) :
    liveKey (Mono.writeEntry st k raw now ttl false) k now := by
  unfold liveKey
  have hg : alistGet (Mono.writeEntry st k raw now ttl false) k
      = some (.wrapped (if (false : Bool) = true ∨ ttl = 0 then maxInt64 else now + ttl) raw) := by
    simp [Mono.writeEntry, alistGet_storePut_self]
  rw [hg]
  by_cases h0 : ttl = 0
  · simp [h0]
  · simp only [h0, Bool.false_eq_true, false_or, if_false]
    intro hand
    obtain ⟨h1, h2⟩ := hand
    omega

theorem readEntry_hit_live (st st1 : Store) (k : String) (raw : Jraw)
    (now ttl : Int) (httl : 0 ≤ ttl)
    (h : Mono.readEntry st k now ttl false = (some raw, st1)) :
    liveKey st1 k now := by
  unfold Mono.readEntry at h
  rcases hg : alistGet st k with _ | v
  · rw [hg] at h
    simp at h
  · cases v with
    | wrapped e w =>
      rw [hg] at h
      replace h : (if e ≠ maxInt64 ∧ now > e then ((none : Option Jraw), storeDel st k)
          else (some w, st)) = (some raw, st1) := h
      by_cases hexp : e ≠ maxInt64 ∧ now > e
      · rw [if_pos hexp] at h; simp at h
      · rw [if_neg hexp] at h
        simp only [Prod.mk.injEq] at h
        obtain ⟨_, hst⟩ := h
        subst hst
        unfold liveKey
        rw [hg]
        exact hexp
    | legacy b =>
      rw [hg] at h
      replace h : (if (false : Bool) = true then ((some b : Option Jraw), st)
          else (some b, Mono.writeEntry st k b now ttl false)) = (some raw, st1) := h
      simp only [Bool.false_eq_true, if_false, Prod.mk.injEq] at h
      obtain ⟨_, hst⟩ := h
      subst hst
      exact writeEntry_live st k b now ttl httl

theorem getLoop_trace_count_le (now ttl : Int) (world : String → HTTPResult) (k : String) :
    ∀ (keys : List String) (st : Store) (acc : List (String × Option Jraw)),
      (Mono.getLoop now ttl (some world) st keys acc).2.2.count k ≤ keys.count k := by
  intro keys
  induction keys with
  | nil => intro st acc; simp [Mono.getLoop]
  | cons key rest ih =>
    intro st acc
    rcases hre : Mono.readEntry st key now ttl false with ⟨r, st1⟩
    cases r with
    | some raw =>
      have hstep : Mono.getLoop now ttl (some world) st (key :: rest) acc
          = Mono.getLoop now ttl (some world) st1 rest (upsert acc key (some (canon raw))) := by
        simp [Mono.getLoop, hre]
      rw [hstep]
      have h2 := ih st1 (upsert acc key (some (canon raw)))
      rcases eq_or_ne k key with hk | hk
      · subst hk; simp [List.count_cons]; omega
      · simp [List.count_cons, hk]; omega
    | none =>
      rcases hf : Mono.fetchFromUpstream (world key) key with e | o
      · have hstep : Mono.getLoop now ttl (some world) st (key :: rest) acc
            = (errResp e, st1, [key]) := by
          simp [Mono.getLoop, hre, hf]
        rw [hstep]
        rcases eq_or_ne k key with hk | hk
        · subst hk; simp [List.count_cons]
        · simp [List.count_cons, hk]
      · cases o with
        | none =>
          have hstep : Mono.getLoop now ttl (some world) st (key :: rest) acc
              = ((Mono.getLoop now ttl (some world) st1 rest (upsert acc key none)).1,
                 (Mono.getLoop now ttl (some world) st1 rest (upsert acc key none)).2.1,
                 key :: (Mono.getLoop now ttl (some world) st1 rest (upsert acc key none)).2.2) := by
            simp [Mono.getLoop, hre, hf]
          rw [hstep]
          have h2 := ih st1 (upsert acc key none)
          rcases eq_or_ne k key with hk | hk
          · subst hk; simp [List.count_cons]; omega
          · simp [List.count_cons, hk]; omega
        | some rawUp =>
          have hstep : Mono.getLoop now ttl (some world) st (key :: rest) acc
              = ((Mono.getLoop now ttl (some world)
                    (Mono.writeEntry st1 key rawUp now ttl false) rest
                    (upsert acc key (some (canon rawUp)))).1,
                 (Mono.getLoop now ttl (some world)
                    (Mono.writeEntry st1 key rawUp now ttl false) rest
                    (upsert acc key (some (canon rawUp)))).2.1,
                 key :: (Mono.getLoop now ttl (some world)
                    (Mono.writeEntry st1 key rawUp now ttl false) rest
                    (upsert acc key (some (canon rawUp)))).2.2) := by
            simp [Mono.getLoop, hre, hf]
          rw [hstep]
          have h2 := ih (Mono.writeEntry st1 key rawUp now ttl false)
            (upsert acc key (some (canon rawUp)))
          rcases eq_or_ne k key with hk | hk
          · subst hk; simp [List.count_cons]; omega
          · simp [List.count_cons, hk]; omega

theorem liveKey_congr (st st1 : Store) (k : String) (now : Int)
    (h : alistGet st1 k = alistGet st k) (hl : liveKey st k now) : liveKey st1 k now := by
  unfold liveKey at hl ⊢
  rw [h]
  exact hl

theorem getLoop_live_no_fetch (now ttl : Int) (world : String → HTTPResult) (k : String)
    (httl : 0 ≤ ttl) :
    ∀ (keys : List String) (st : Store) (acc : List (String × Option Jraw)),
      liveKey st k now →
      (Mono.getLoop now ttl (some world) st keys acc).2.2.count k = 0 := by
  intro keys
  induction keys with
  | nil => intro st acc _; simp [Mono.getLoop]
  | cons key rest ih =>
    intro st acc hlive
    rcases hre : Mono.readEntry st key now ttl false with ⟨r, st1⟩
    cases r with
    | some raw =>
      have hstep : Mono.getLoop now ttl (some world) st (key :: rest) acc
          = Mono.getLoop now ttl (some world) st1 rest (upsert acc key (some (canon raw))) := by
        simp [Mono.getLoop, hre]
      rw [hstep]
      rcases eq_or_ne k key with hk | hk
      · subst hk
        exact ih st1 _ (readEntry_hit_live st st1 k raw now ttl httl hre)
      · have hpres : alistGet st1 k = alistGet st k := by
          have h3 := readEntry_other_key st key k now ttl false hk
          rw [hre] at h3; exact h3
        exact ih st1 _ (liveKey_congr st st1 k now hpres hlive)
    | none =>
      have hk : k ≠ key := by
        intro hkk; subst hkk
        have h3 := liveKey_hit st k now ttl hlive
        rw [hre] at h3; simp at h3
      have hpres : alistGet st1 k = alistGet st k := by
        have h3 := readEntry_other_key st key k now ttl false hk
        rw [hre] at h3; exact h3
      have hlive1 := liveKey_congr st st1 k now hpres hlive
      rcases hf : Mono.fetchFromUpstream (world key) key with e | o
      · have hstep : Mono.getLoop now ttl (some world) st (key :: rest) acc
            = (errResp e, st1, [key]) := by
          simp [Mono.getLoop, hre, hf]
        rw [hstep]
        simp [List.count_cons, hk]
      · cases o with
        | none =>
          have hstep : Mono.getLoop now ttl (some world) st (key :: rest) acc
              = ((Mono.getLoop now ttl (some world) st1 rest (upsert acc key none)).1,
                 (Mono.getLoop now ttl (some world) st1 rest (upsert acc key none)).2.1,
                 key :: (Mono.getLoop now ttl (some world) st1 rest (upsert acc key none)).2.2) := by
            simp [Mono.getLoop, hre, hf]
          rw [hstep]
          have h2 := ih st1 (upsert acc key none) hlive1
          simp [List.count_cons, hk, h2]
        | some rawUp =>
          have hlive2 : liveKey (Mono.writeEntry st1 key rawUp now ttl false) k now := by
            refine liveKey_congr st1 _ k now ?_ hlive1
            simp [Mono.writeEntry, alistGet_storePut_ne st1 key k _ hk]
          have hstep : Mono.getLoop now ttl (some world) st (key :: rest) acc
              = ((Mono.getLoop now ttl (some world)
                    (Mono.writeEntry st1 key rawUp now ttl false) rest
                    (upsert acc key (some (canon rawUp)))).1,
                 (Mono.getLoop now ttl (some world)
                    (Mono.writeEntry st1 key rawUp now ttl false) rest
                    (upsert acc key (some (canon rawUp)))).2.1,
                 key :: (Mono.getLoop now ttl (some world)
                    (Mono.writeEntry st1 key rawUp now ttl false) rest
                    (upsert acc key (some (canon rawUp)))).2.2) := by
            simp [Mono.getLoop, hre, hf]
          rw [hstep]
          have h2 := ih (Mono.writeEntry st1 key rawUp now ttl false)
            (upsert acc key (some (canon rawUp))) hlive2
          simp [List.count_cons, hk, h2]

theorem getLoop_found_once (now ttl : Int) (world : String → HTTPResult) (k : String)
    (v : Jraw) (httl : 0 ≤ ttl)
    (hfk : Mono.fetchFromUpstream (world k) k = .ok (some v)) :
    ∀ (keys : List String) (st : Store) (acc : List (String × Option Jraw)),
      (Mono.getLoop now ttl (some world) st keys acc).2.2.count k ≤ 1 := by
  intro keys
  induction keys with
  | nil => intro st acc; simp [Mono.getLoop]
  | cons key rest ih =>
    intro st acc
    rcases hre : Mono.readEntry st key now ttl false with ⟨r, st1⟩
    cases r with
    | some raw =>
      have hstep : Mono.getLoop now ttl (some world) st (key :: rest) acc
          = Mono.getLoop now ttl (some world) st1 rest (upsert acc key (some (canon raw))) := by
        simp [Mono.getLoop, hre]
      rw [hstep]
      exact ih st1 _
    | none =>
      rcases eq_or_ne k key with hk | hk
      · subst hk
        have hstep : Mono.getLoop now ttl (some world) st (k :: rest) acc
            = ((Mono.getLoop now ttl (some world)
                  (Mono.writeEntry st1 k v now ttl false) rest
                  (upsert acc k (some (canon v)))).1,
               (Mono.getLoop now ttl (some world)
                  (Mono.writeEntry st1 k v now ttl false) rest
                  (upsert acc k (some (canon v)))).2.1,
               k :: (Mono.getLoop now ttl (some world)
                  (Mono.writeEntry st1 k v now ttl false) rest
                  (upsert acc k (some (canon v)))).2.2) := by
          simp [Mono.getLoop, hre, hfk]
        rw [hstep]
        have h0 := getLoop_live_no_fetch now ttl world k httl rest
          (Mono.writeEntry st1 k v now ttl false) (upsert acc k (some (canon v)))
          (writeEntry_live st1 k v now ttl httl)
        simp [List.count_cons, h0]
      · rcases hf : Mono.fetchFromUpstream (world key) key with e | o
        · have hstep : Mono.getLoop now ttl (some world) st (key :: rest) acc
              = (errResp e, st1, [key]) := by
            simp [Mono.getLoop, hre, hf]
          rw [hstep]
          simp [List.count_cons, hk]
        · cases o with
          | none =>
            have hstep : Mono.getLoop now ttl (some world) st (key :: rest) acc
                = ((Mono.getLoop now ttl (some world) st1 rest (upsert acc key none)).1,
                   (Mono.getLoop now ttl (some world) st1 rest (upsert acc key none)).2.1,
                   key :: (Mono.getLoop now ttl (some world) st1 rest
                      (upsert acc key none)).2.2) := by
              simp [Mono.getLoop, hre, hf]
            rw [hstep]
            have h2 := ih st1 (upsert acc key none)
            simp only [List.count_cons]
            simp [Ne.symm hk, h2]
          | some rawUp =>
            have hstep : Mono.getLoop now ttl (some world) st (key :: rest) acc
                = ((Mono.getLoop now ttl (some world)
                      (Mono.writeEntry st1 key rawUp now ttl false) rest
                      (upsert acc key (some (canon rawUp)))).1,
                   (Mono.getLoop now ttl (some world)
                      (Mono.writeEntry st1 key rawUp now ttl false) rest
                      (upsert acc key (some (canon rawUp)))).2.1,
                   key :: (Mono.getLoop now ttl (some world)
                      (Mono.writeEntry st1 key rawUp now ttl false) rest
                      (upsert acc key (some (canon rawUp)))).2.2) := by
              simp [Mono.getLoop, hre, hf]
            rw [hstep]
            have h2 := ih (Mono.writeEntry st1 key rawUp now ttl false)
              (upsert acc key (some (canon rawUp)))
            simp only [List.count_cons]
            simp [Ne.symm hk, h2]

/-! ### C5 -/

/-- C5 counterexample: a GET for `["k", "k"]` on an empty store against an
upstream that reports not-found issues TWO upstream fetches for the single
requested key `"k"` — the miss is not memoized within the invocation, so
"at most one upstream call per requested key" fails for duplicated keys. -/
theorem duplicateKeyRefetch_cex :
    (Mono.handleRequest [] ⟨"GET", ["k", "k"], []⟩ 0 0 (some worldAll404)).2.2
      = ["k", "k"] ∧
    1 < ((Mono.handleRequest [] ⟨"GET", ["k", "k"], []⟩ 0 0
          (some worldAll404)).2.2).count "k" := by decide

/-- C5 amended: per GET invocation, the upstream is fetched at most once per
OCCURRENCE of a key in the request's key list (the fetch trace counts each
key no more often than the key list does); and when the upstream returns a
value for the key (and the configured ttl is non-negative), the populated
local entry serves all later duplicate occurrences, so that key is fetched at
most once in the whole invocation.  Only for a key the upstream reports
not-found can duplicate occurrences fetch more than once. -/
theorem upstreamFetch_perKey (now ttl : Int) (world : String → HTTPResult)
    (st : Store) (keys : List String) (k : String) (httl : 0 ≤ ttl) :
    (Mono.handleRequest st ⟨"GET", keys, []⟩ now ttl (some world)).2.2.count k
      ≤ keys.count k ∧
    ((∃ v, Mono.fetchFromUpstream (world k) k = .ok (some v)) →
      (Mono.handleRequest st ⟨"GET", keys, []⟩ now ttl (some world)).2.2.count k ≤ 1) := by
  constructor
  · simpa [Mono.handleRequest] using getLoop_trace_count_le now ttl world k keys st []
  · rintro ⟨v, hf⟩
    simpa [Mono.handleRequest] using getLoop_found_once now ttl world k v httl hf keys st []

/-- Witness for C5: keys `["k", "j", "k"]` against an upstream holding a
value for `"k"`. -/
theorem upstreamFetch_perKey_witness :
    (Mono.handleRequest [] ⟨"GET", ["k", "j", "k"], []⟩ 0 5
        (some worldFoundK)).2.2.count "k"
      ≤ (["k", "j", "k"] : List String).count "k" ∧
    (Mono.handleRequest [] ⟨"GET", ["k", "j", "k"], []⟩ 0 5
        (some worldFoundK)).2.2.count "k" ≤ 1 := by
  have h := upstreamFetch_perKey 0 5 worldFoundK [] ["k", "j", "k"] "k" (by decide)
  exact ⟨h.1, h.2 ⟨Jraw.num 1, by decide⟩⟩
